import Mathlib

/-!
# Verification of the MeowNet context builder core

Shallow embedding of `src/scripts/context_builder.py`: the file selection
and prioritization pipeline (pattern matching, exclusion filtering, tree
walking, priority classification, prioritization sorting, directory tree
rendering, content truncation) together with theorems settling the frozen
claims about it.

Python strings are modelled as `List Char` (Python `len` and slicing count
code points, exactly as `List Char` does); paths handed to the exclusion
policy and tree walker are modelled as lists of path segments.
-/

namespace ContextBuilderModel

/-- `leadsWith pre l` holds when `pre` occurs at the front of `l`
(Python `str.startswith` on code-point lists). -/
def leadsWith : List Char → List Char → Bool
  | [], _ => true
  | _ :: _, [] => false
  | p :: ps, c :: cs => p == c && leadsWith ps cs

/-- `trailsWith suf l` holds when `suf` occurs at the end of `l`
(Python `str.endswith`). -/
def trailsWith (suf l : List Char) : Bool :=
  leadsWith suf.reverse l.reverse

/-- `containsSeq needle hay` holds when `needle` occurs contiguously inside
`hay` (Python `needle in hay` on strings). -/
def containsSeq (needle : List Char) : List Char → Bool
  | [] => leadsWith needle []
  | c :: cs => leadsWith needle (c :: cs) || containsSeq needle cs

/-- `containsStr s sub`: Python `sub in s` for strings. -/
def containsStr (s sub : String) : Bool :=
  containsSeq sub.data s.data

/-- Python `str.split(sep)` for a one-character separator: always returns at
least one (possibly empty) piece, and `n` separators yield `n + 1` pieces. -/
def splitOnChar (sep : Char) : List Char → List (List Char)
  | [] => [[]]
  | c :: cs =>
    if c == sep then [] :: splitOnChar sep cs
    else
      match splitOnChar sep cs with
      | [] => [[c]]
      | l :: ls => (c :: l) :: ls

/-- Python `content.split('\n')`. -/
def splitLines (content : List Char) : List (List Char) :=
  splitOnChar '\n' content

/-- Python `'\n'.join(lines)`. -/
def joinLines : List (List Char) → List Char
  | [] => []
  | [l] => l
  | l :: ls => l ++ '\n' :: joinLines ls

/-- Python negative-index slice `l[-half:]`: for `half = 0` this is `l[0:]`,
the whole list, not the empty list. -/
def pyTakeLast (l : List (List Char)) (half : Nat) : List (List Char) :=
  if half == 0 then l else l.drop (l.length - half)

/-- Decimal rendering of a possibly negative count, as Python `str(int)`. -/
def intStr (n : Int) : String :=
  if n < 0 then "-" ++ Nat.repr n.natAbs else Nat.repr n.natAbs

/-- The line-truncation marker inserted between head and tail
(`f"\n[... файл обрезан, показано {half * 2} из {total_lines} строк ...]\n"`). -/
def lineMarker (shown total : Nat) : List Char :=
  ("\n[... файл обрезан, показано " ++ Nat.repr shown ++ " из "
    ++ Nat.repr total ++ " строк ...]\n").data

/-- The character-truncation marker
(`f"\n[... файл обрезан, {len(content) - max_chars} символов скрыто ...]"`). -/
def charMarker (hidden : Int) : List Char :=
  ("\n[... файл обрезан, " ++ intStr hidden ++ " символов скрыто ...]").data

/-- `truncate_content` from `context_builder.py` lines 87–121: bound a text
to `max_lines` lines (keeping the first and last `max_lines // 2` lines
around a marker line) and then to `max_chars` characters (hard cut plus a
marker computed against the original length). -/
def truncate_content (content : List Char) (max_lines : Nat := 100)
    (max_chars : Nat := 5000) : List Char :=
  let lines := splitLines content
  let total_lines := lines.length
  if total_lines ≤ max_lines && content.length ≤ max_chars then content
  else
    let result :=
      if max_lines < total_lines then
        let half := max_lines / 2
        let first_part := lines.take half
        let last_part := if half * 2 < total_lines then pyTakeLast lines half else []
        joinLines (first_part ++ lineMarker (half * 2) total_lines :: last_part)
      else content
    if max_chars < result.length then
      result.take max_chars ++ charMarker ((content.length : Int) - (max_chars : Int))
    else result

/-! ## Path helpers (`pathlib.Path` accessors used by the source) -/

/-- The `/`-separated segments of a (normalised, relative) path string,
as `pathlib.Path(p).parts`. -/
def pathParts (p : String) : List String :=
  ((splitOnChar '/' p.data).filter (fun seg => !seg.isEmpty)).map String.mk

/-- `pathlib.Path(p).name`: the final path segment (empty for `.`). -/
def pathName (p : String) : String :=
  (pathParts p).getLastD ""

/-- `pathlib.Path(p).parent.name`: the name of the immediate parent
directory (empty when the path has at most one segment). -/
def pathParentName (p : String) : String :=
  ((pathParts p).dropLast).getLastD ""

/-- Index of the first `'.'` in a character list, if any. -/
def firstDotIdx : List Char → Option Nat
  | [] => none
  | c :: cs => if c == '.' then some 0 else (firstDotIdx cs).map (· + 1)

/-- `pathlib`'s suffix of a bare file name: the part of `name` from its last
`'.'` on, provided that dot is neither the first nor the last character
(`Path('.gitignore').suffix == ''`, `Path('a.tar.gz').suffix == '.gz'`). -/
def nameSuffix (name : String) : String :=
  let rev := name.data.reverse
  match firstDotIdx rev with
  | none => ""
  | some j =>
    if 0 < j && j + 1 < name.data.length then String.mk ('.' :: (rev.take j).reverse)
    else ""

/-- `pathlib.Path(p).suffix`: the extension of the final component. -/
def pathSuffix (p : String) : String :=
  nameSuffix (pathName p)

/-! ## Priority classifier (`FilePriority`, `detect_file_priority`) -/

/-- The `FilePriority` enumeration from the source. -/
inductive FilePriority
  | CRITICAL
  | HIGH
  | MEDIUM
  | LOW
  | NOISE
deriving DecidableEq

/-- The numeric value of each `FilePriority` member. -/
def FilePriority.value : FilePriority → Nat
  | .CRITICAL => 100
  | .HIGH => 80
  | .MEDIUM => 50
  | .LOW => 30
  | .NOISE => 0

/-- Critical file names (`detect_file_priority`, first membership test). -/
def criticalNames : List String :=
  ["pyproject.toml", "README.md", "README.rst", "LICENSE", "MANIFEST.in"]

/-- Main configuration file names (second membership test). -/
def highConfigNames : List String :=
  ["setup.py", "setup.cfg", "requirements.txt", "Pipfile", "docker-compose.yml",
   ".env.example", ".gitignore", ".dockerignore", ".pre-commit-config.yaml"]

/-- The core-directory substrings tested against the whole path string. -/
def coreParts : List String := ["/src/", "/lib/", "/core/", "/main/", "/app/"]

/-- The utility-directory substrings tested against the whole path string. -/
def utilParts : List String := ["/utils/", "/helpers/", "/tools/", "/scripts/"]

/-- Documentation suffixes. -/
def docSuffixes : List String := [".md", ".rst", ".txt"]

/-- Structured-configuration suffixes. -/
def configSuffixes : List String := [".yml", ".yaml", ".json", ".toml", ".cfg", ".ini"]

/-- `detect_file_priority` from `context_builder.py` lines 124–165, on the
path string (`str(file_path)` of a normalised relative path). -/
def detect_file_priority (file_path : String) : FilePriority :=
  let path_str := file_path
  let name := pathName file_path
  let parent := pathParentName file_path
  if criticalNames.contains name then .CRITICAL
  else if highConfigNames.contains name then .HIGH
  else if pathSuffix file_path == ".py"
      && coreParts.any (fun part => containsStr path_str part)
      && !containsStr name "test" && !containsStr path_str "test" then .HIGH
  else if pathSuffix file_path == ".py"
      && (containsStr name "test" || containsStr path_str "tests/"
          || containsStr path_str "/test_") then .MEDIUM
  else if pathSuffix file_path == ".py"
      && utilParts.any (fun part => containsStr path_str part) then .MEDIUM
  else if docSuffixes.contains (pathSuffix file_path) then
    if parent == "docs" || parent == "documentation" then .LOW else .MEDIUM
  else if configSuffixes.contains (pathSuffix file_path) then .MEDIUM
  else .NOISE

/-! ## Pattern matcher (`fnmatch` fragment and `match_pattern`) -/

/-- Shell-style glob matching of `fnmatch.fnmatch` on POSIX for patterns
built from literals, `*` (any run of characters) and `?` (exactly one
character), with an explicit recursion budget: every step consumes at
least one character of the pattern or of the name, so a budget exceeding
their combined length never runs out. -/
def globMatchF : Nat → List Char → List Char → Bool
  | 0, _, _ => false
  | _ + 1, [], [] => true
  | _ + 1, [], _ :: _ => false
  | fuel + 1, '*' :: ps, s =>
    globMatchF fuel ps s ||
      (match s with
       | [] => false
       | _ :: cs => globMatchF fuel ('*' :: ps) cs)
  | _ + 1, '?' :: _, [] => false
  | fuel + 1, '?' :: ps, _ :: cs => globMatchF fuel ps cs
  | fuel + 1, p :: ps, c :: cs => p == c && globMatchF fuel ps cs
  | _ + 1, _ :: _, [] => false

/-- Glob matching with an always-sufficient budget; first argument is the
pattern, second the name. -/
def globMatch (ps s : List Char) : Bool :=
  globMatchF (ps.length + s.length + 1) ps s

/-- `fnmatch.fnmatch(name, pattern)` (case-preserving POSIX behaviour). -/
def fnmatchB (name pattern : String) : Bool :=
  globMatch pattern.data name.data

/-- `match_pattern` from `context_builder.py` lines 168–182. -/
def match_pattern (filename pattern : String) : Bool :=
  if pattern == filename then true
  else if pattern.data.contains '*' then fnmatchB filename pattern
  else if leadsWith ['.'] pattern.data then trailsWith pattern.data filename.data
  else false

/-- The matcher the claim describes, word for word: a pattern containing a
wildcard glob character — `*` or `?` — is glob-matched against the full
name (this definition follows the spec text, for comparison with
`match_pattern`, which is translated from the source). -/
def match_pattern_claimed (filename pattern : String) : Bool :=
  if pattern == filename then true
  else if pattern.data.contains '*' || pattern.data.contains '?' then
    fnmatchB filename pattern
  else if leadsWith ['.'] pattern.data then trailsWith pattern.data filename.data
  else false

/-! ## Exclusion policy (`ExclusionSet`, `ContextBuilder._should_exclude`) -/

/-- The four default rule sets of `ExclusionSet` (Python sets are used only
through membership/iteration, so lists model them). -/
structure ExclusionSet where
  dirs : List String :=
    ["__pycache__", ".git", ".svn", ".hg", ".idea", ".vscode",
     "node_modules", "venv", ".venv", "env", ".env",
     "dist", "build", "out", "target", "bin", "obj",
     ".pytest_cache", ".mypy_cache", ".ruff_cache", "coverage",
     "*.egg-info", ".cache"]
  files : List String :=
    [".DS_Store", "Thumbs.db", "desktop.ini",
     "*.pyc", "*.pyo", "*.pyd", "*.so", "*.dll", "*.dylib",
     "*.class", "*.jar", "*.war", "*.ear",
     "*.log", "*.sqlite", "*.db", "*.sqlite3",
     "*.min.js", "*.min.css", "*.map",
     "package-lock.json", "yarn.lock", "pnpm-lock.yaml",
     "poetry.lock", "Pipfile.lock", "pip-delete-this-directory.txt"]
  file_patterns : List String :=
    ["*.pyc", "*.log", "*.tmp", "*.temp", "*.swp", "*.swo",
     "*.bak", "*.backup", "*~", "#*#", ".#*"]
  extensions : List String :=
    [".pyc", ".pyo", ".pyd", ".so", ".dll", ".dylib",
     ".class", ".jar", ".war", ".ear", ".log",
     ".min.js", ".min.css", ".map"]

/-- The exclusion-relevant state of a `ContextBuilder` instance: the rule
sets plus the custom filter predicates added by `add_filter` (each filter's
condition receives the path, modelled as its list of segments; the `name`
tag of a filter plays no role in exclusion decisions). -/
structure Builder where
  exclusions : ExclusionSet := {}
  custom_filters : List (List String → Bool) := []

/-- Base name of a segment path, `pathlib.Path(...).name`. -/
def segBaseName (path : List String) : String :=
  path.getLastD ""

/-- `ContextBuilder._should_exclude` from lines 292–316; `isDir` stands for
the `path.is_dir()` test, decided by the walker that supplies the path. -/
def _should_exclude (b : Builder) (isDir : Bool) (path : List String) : Bool :=
  (if isDir then
    b.exclusions.dirs.any (fun pattern => match_pattern (segBaseName path) pattern)
  else
    b.exclusions.files.any (fun pattern => match_pattern (segBaseName path) pattern)
    || b.exclusions.file_patterns.any (fun pattern => fnmatchB (segBaseName path) pattern)
    || b.exclusions.extensions.any (fun ext => nameSuffix (segBaseName path) == ext))
  || b.custom_filters.any (fun cond => cond path)

/-! ## Tree walker (`ContextBuilder._collect_all_files`) -/

/-- A filesystem tree: named files and named directories with entries. -/
inductive FSTree
  | file (name : String)
  | dir (name : String) (entries : List FSTree)

/-- One `os.walk` layer at a visited directory (`_collect_all_files` body,
lines 322–338): keep the directory's files that are not excluded, then
descend only into subdirectories that are not excluded (`topdown=True`
pruning via `dirs[:] = ...`). The recursion carries an explicit budget that
decreases one per directory level, so the definition is structural: a
budget of at least the tree's depth plus one reproduces the full walk, and
the pruning theorems below hold for every budget. -/
def walkF (b : Builder) : Nat → List String → List FSTree → List (List String)
  | 0, _, _ => []
  | fuel + 1, base, entries =>
    (entries.filterMap fun e =>
      match e with
      | .file n =>
        if _should_exclude b false (base ++ [n]) then none else some (base ++ [n])
      | .dir _ _ => none)
    ++ (entries.map fun e =>
        match e with
        | .file _ => []
        | .dir n cs =>
          if _should_exclude b true (base ++ [n]) then []
          else walkF b fuel (base ++ [n]) cs).flatten

/-- `ContextBuilder._collect_all_files`, on a modelled root directory:
paths are returned as segment lists relative to the root (the root itself
is never tested against the exclusion policy). -/
def _collect_all_files (b : Builder) (fuel : Nat) (root : List FSTree) :
    List (List String) :=
  walkF b fuel [] root

/-! ## File prioritizer (`ContextBuilder.prioritize_files`) -/

/-- Lexicographic (code-point) order on character lists, as Python compares
strings. -/
def charListLe : List Char → List Char → Bool
  | [], _ => true
  | _ :: _, [] => false
  | a :: as, b :: bs =>
    if a.toNat < b.toNat then true
    else if b.toNat < a.toNat then false
    else charListLe as bs

/-- Python `s1 <= s2` on strings. -/
def strLeB (s1 s2 : String) : Bool :=
  charListLe s1.data s2.data

/-- The sort key comparison of `prioritize_files`: Python's stable ascending
sort under `key=lambda x: (-x[0], x[1])` keeps `x` before `y` exactly when
`(-x.1, x.2) ≤ (-y.1, y.2)` lexicographically. -/
def pairLe (x y : Nat × String) : Bool :=
  y.1 < x.1 || (x.1 == y.1 && strLeB x.2 y.2)

/-- Ordered insertion for the stable insertion sort modelling Python's
`list.sort` / `sorted`: the new element goes before the first existing
element it compares no-greater than, hence after all elements equal to it. -/
def pyOrderedInsert {α : Type _} (le : α → α → Bool) (a : α) : List α → List α
  | [] => [a]
  | b :: l => if le a b then a :: b :: l else b :: pyOrderedInsert le a l

/-- Python's stable ascending sort (`list.sort`, `sorted`), modelled as
stable insertion sort: for a total, transitive comparison this computes
exactly the stable sort that Python's timsort produces. -/
def pySortBy {α : Type _} (le : α → α → Bool) : List α → List α
  | [] => []
  | b :: l => pyOrderedInsert le b (pySortBy le l)

/-- `ContextBuilder.prioritize_files` from lines 411–423: tag each path
with its priority value, stable-sort by `(-value, path)`, strip the tags
(Python `list.sort` is a stable ascending sort, modelled by `mergeSort`). -/
def prioritize_files (file_paths : List String) : List String :=
  let files_with_priority :=
    file_paths.map (fun file_str => ((detect_file_priority file_str).value, file_str))
  (pySortBy pairLe files_with_priority).map (·.2)

/-! ## Source summarizer (`PythonFileAnalyzer.analyze`) -/

/-- `FileAnalysis` from the source. -/
structure FileAnalysis where
  imports : List String := []
  classes : List String := []
  functions : List String := []
  line_count : Nat := 0
  code_line_count : Nat := 0

/-- What the `ast.parse` / `ast.walk` pass of `analyze` extracts on
success. The Python `ast` module is outside this repository (the spec
treats the structural summarizer's parser as an external collaborator), so
the parser is a parameter: it returns the extracted import, class and
function description strings, or `none` on `SyntaxError`/`RecursionError`. -/
structure ParsedModule where
  imports : List String
  classes : List String
  functions : List String

/-- Python `str.strip()` whitespace set (no `'\n'` can occur in a line
obtained from `split('\n')`, but it is stripped too). -/
def isPySpace (c : Char) : Bool :=
  c == ' ' || c == '\t' || c == '\n' || c == '\r'
    || c == Char.ofNat 11 || c == Char.ofNat 12

/-- Python `line.strip()`. -/
def pyStrip (cs : List Char) : List Char :=
  (cs.dropWhile isPySpace).reverse.dropWhile isPySpace |>.reverse

/-- The code-line filter of `analyze`: non-blank lines not starting (after
stripping) with `#`. -/
def isCodeLine (line : List Char) : Bool :=
  !(pyStrip line).isEmpty && !leadsWith ['#'] (pyStrip line)

/-- `PythonFileAnalyzer.analyze` from lines 190–248: the line count is
taken from the raw text up front; on a successful parse the extracted
summary and the code-line count are filled in; on a parse failure the
partially initialised (all-empty) analysis is returned unchanged. -/
def analyze (parse : List Char → Option ParsedModule) (content : List Char) :
    FileAnalysis :=
  let line_count := (splitLines content).length
  match parse content with
  | some m =>
    { imports := m.imports, classes := m.classes, functions := m.functions,
      line_count := line_count,
      code_line_count := ((splitLines content).filter isCodeLine).length }
  | none =>
    { imports := [], classes := [], functions := [],
      line_count := line_count, code_line_count := 0 }

/-! ## Directory tree renderer (`ContextBuilder.build_directory_tree`) -/

/-- The renderer's `structure` mapping: a `defaultdict(list)` from directory
path keys to their ordered child-name lists, modelled as an insertion-order
association list. -/
def Structure := List (String × List String)

/-- `structure.get(node, [])`. -/
def stGet (st : Structure) (key : String) : List String :=
  match st.find? (fun kv => kv.1 == key) with
  | some kv => kv.2
  | none => []

/-- `key in structure`. -/
def stHasKey (st : Structure) (key : String) : Bool :=
  (st.find? (fun kv => kv.1 == key)).isSome

/-- `structure[key].append(v)` on a `defaultdict(list)`. -/
def stAppend : Structure → String → String → Structure
  | [], key, v => [(key, [v])]
  | (k, l) :: rest, key, v =>
    if k == key then (k, l ++ [v]) :: rest else (k, l) :: stAppend rest key v

/-- `if v not in structure[key]: structure[key].append(v)` on a
`defaultdict(list)` (the lookup itself creates the key). -/
def stAppendNew : Structure → String → String → Structure
  | [], key, v => [(key, [v])]
  | (k, l) :: rest, key, v =>
    if k == key then (k, if l.contains v then l else l ++ [v]) :: rest
    else (k, l) :: stAppendNew rest key v

/-- Registration of one included file's relative path segments into the
`structure` map (`build_directory_tree` lines 355–372): a one-segment path
goes under the root key `'.'`; otherwise every proper prefix from length 1
on is a directory key receiving the following segment, with deduplication
for intermediate directories only. The top-level segment of a multi-segment
path is registered under no key. -/
def registerParts (st : Structure) (parts : List String) : Structure :=
  if parts.length == 1 then stAppend st "." (parts.headD "")
  else
    (List.range' 1 (parts.length - 1)).foldl
      (fun st i =>
        let dir_path := String.intercalate "/" (parts.take i)
        if i == parts.length - 1 then stAppend st dir_path (parts.getD i "")
        else
          let dir_name := parts.getD i ""
          stAppendNew st dir_path dir_name)
      st

/-- The `structure` map built from the collected files' relative paths. -/
def buildStructure (files : List String) : Structure :=
  files.foldl (fun st f => registerParts st (pathParts f)) []

mutual

/-- The nested `build_tree(node, prefix, is_last)` helper (lines 377–395),
with an explicit recursion budget (`fuel`); note that the connector and the
indent appended for a child are chosen by the `is_last` flag of `node`, not
by `child_is_last`, exactly as in the source. -/
def build_tree (st : Structure) : Nat → String → String → Bool → List String
  | 0, _, _, _ => []
  | fuel + 1, node, pre, is_last =>
    buildTreeLoop st fuel node pre is_last (pySortBy strLeB (stGet st node))
termination_by fuel => (fuel, 0)

/-- The `for i, child in enumerate(children)` loop body of `build_tree`. -/
def buildTreeLoop (st : Structure) (fuel : Nat) (node pre : String)
    (is_last : Bool) : List String → List String
  | [] => []
  | child :: rest =>
    let child_is_last := rest.isEmpty
    let childPre := pre ++ (if is_last then "    " else "│   ")
    let child_path := if node != "." then node ++ "/" ++ child else child
    let is_dir := stHasKey st child_path || child.data.contains '/'
    let icon := if is_dir then "📁 " else "📄 "
    let line :=
      if node == "." then icon ++ child
      else pre ++ (if is_last then "└── " else "├── ") ++ icon ++ child
    (line :: (if is_dir then build_tree st fuel child_path childPre child_is_last else []))
      ++ buildTreeLoop st fuel node pre is_last rest
termination_by children => (fuel, children.length + 1)

end

/-- The root loop of the renderer (lines 398–407): children of `'.'` only;
every top-level directory is descended into with `is_last = False`. -/
def buildTopLoop (st : Structure) (fuel : Nat) : List String → List String
  | [] => []
  | child :: rest =>
    let child_path := child
    let is_dir := stHasKey st child_path || child_path.data.contains '/'
    let icon := if is_dir then "📁 " else "📄 "
    ((icon ++ child) :: (if is_dir then build_tree st fuel child_path "" false else []))
      ++ buildTopLoop st fuel rest

/-- A recursion budget ample for any structure: each recursive `build_tree`
step strictly lengthens its `node` key, so the depth is bounded by the
total size of the map. -/
def structureFuel (st : Structure) : Nat :=
  st.foldl (fun acc kv => acc + kv.1.length + kv.2.length + 1) 2

/-- `ContextBuilder.build_directory_tree` (lines 340–409) as a function of
the collected files' root-relative paths (the source obtains them from
`self._collect_all_files()` and `relative_to(self.root)`). -/
def build_directory_tree (files : List String) : String :=
  let st := buildStructure files
  let lines :=
    if stHasKey st "." then
      buildTopLoop st (structureFuel st) (pySortBy strLeB (stGet st "."))
    else []
  String.intercalate "\n" lines

/-! ## File entry formatting and the content section of `build` -/

/-- `FileInfo` from the source (the unused `stats` dictionary field is
omitted; nothing reads or writes it). -/
structure FileInfo where
  path : String
  content : List Char
  relative_path : String
  priority : FilePriority := .MEDIUM
  analysis : Option FileAnalysis := none

/-- `ContextBuilder.format_file_entry` (lines 433–477): path header line,
optional stats line, then the (truncated) content indented by three
spaces when its stripped form is non-empty. -/
def format_file_entry (fi : FileInfo) : List Char :=
  let header := ("📄 " ++ fi.relative_path).data
  let stats_parts : List String :=
    match fi.analysis with
    | none => []
    | some a =>
      (if a.imports.isEmpty then []
       else [Nat.repr a.imports.length ++ " импорт"
              ++ (if a.imports.length % 10 > 1 then "ов" else "")])
      ++ (if a.classes.isEmpty then []
          else [Nat.repr a.classes.length ++ " класс"
                 ++ (if a.classes.length % 10 > 1 then "ов" else "")])
      ++ (if a.functions.isEmpty then []
          else [Nat.repr a.functions.length ++ " функци"
                 ++ (if a.functions.length % 10 > 1 then "й" else "я")])
      ++ (if a.line_count == 0 then [] else [Nat.repr a.line_count ++ " строк"])
  let statsLines : List (List Char) :=
    if stats_parts.isEmpty then []
    else [("╰─ " ++ String.intercalate ", " stats_parts).data]
  let contentLines : List (List Char) :=
    if (pyStrip fi.content).isEmpty then []
    else (splitLines fi.content).map (fun line => "   ".data ++ line)
  joinLines (header :: statsLines ++ contentLines)

/-- The file-content section of `ContextBuilder.build` (lines 536–562): for
each prioritized file, read it (`read` models `_read_file`, returning
`none` on an I/O or decoding error), and — only when the result is truthy,
i.e. neither `None` nor the empty string — analyze (for `.py` files,
through the abstracted external parser `parse`), truncate, format, and
append a horizontal-rule separator after every entry except the last
file's. Returns the list of appended parts. -/
def content_section_aux (read : String → Option (List Char))
    (parse : List Char → Option ParsedModule) (total : Nat) :
    Nat → List String → List String
  | _, [] => []
  | i, file_str :: rest =>
    (match read file_str with
     | none => []
     | some content =>
       if content.isEmpty then []
       else
         let analysis :=
           if pathSuffix file_str == ".py" then some (analyze parse content) else none
         let truncated := truncate_content content 100 5000
         let fi : FileInfo :=
           { path := file_str, content := truncated, relative_path := file_str,
             priority := detect_file_priority file_str, analysis := analysis }
         String.mk (format_file_entry fi)
           :: (if i < total then ["\n" ++ String.mk (List.replicate 40 '-') ++ "\n"] else []))
      ++ content_section_aux read parse total (i + 1) rest

/-- The content-section parts, with `enumerate(prioritized, 1)` indexing. -/
def content_section (read : String → Option (List Char))
    (parse : List Char → Option ParsedModule) (prioritized : List String) :
    List String :=
  content_section_aux read parse prioritized.length 1 prioritized

/-! ## Derived definitions used by the claim statements -/

/-- The line-count cut of `truncate_content` in isolation (the
`total_lines > max_lines` stage, lines 107–115). -/
def pyLineCut (content : List Char) (max_lines : Nat) : List Char :=
  let lines := splitLines content
  let total_lines := lines.length
  if max_lines < total_lines then
    let half := max_lines / 2
    joinLines (lines.take half ++ lineMarker (half * 2) total_lines
      :: (if half * 2 < total_lines then pyTakeLast lines half else []))
  else content

/-- The character-count cut of `truncate_content` in isolation (lines
118–119), applied to an already line-cut `result`; the hidden-character
count is computed against the original `content`. -/
def pyCharCut (content : List Char) (max_chars : Nat) (result : List Char) : List Char :=
  if max_chars < result.length then
    result.take max_chars ++ charMarker ((content.length : Int) - (max_chars : Int))
  else result

/-- The 500 lines `"# Line {i}"`, `i = 0 .. 499`, of the truncation
scenario. -/
def pyLines500 : List (List Char) :=
  (List.range 500).map (fun i => ("# Line " ++ Nat.repr i).data)

/-- The 500-line scenario text, the lines joined by newlines. -/
def pyContent500 : List Char :=
  joinLines pyLines500

/-- The line list of the truncated 500-line scenario: first 25 lines,
marker, last 25 lines. -/
def pyTrunc500Lines : List (List Char) :=
  pyLines500.take 25 ++ lineMarker 50 500 :: pyLines500.drop 475

/-- The ordering the prioritizer claim asserts between adjacent output
entries: strictly higher tier first, ties in ascending code-point order of
the path strings. -/
def priorityKeyLe (a b : String) : Prop :=
  (detect_file_priority b).value < (detect_file_priority a).value
    ∨ ((detect_file_priority a).value = (detect_file_priority b).value
        ∧ strLeB a b = true)

/-- First line of a rendered part (everything before its first newline). -/
def firstLineOf (s : String) : String :=
  String.mk ((splitLines s.data).headD [])

/-- A small filesystem for the walker witness: a kept directory holding a
kept file, an excluded directory holding an otherwise unremarkable file,
and one excluded root file. -/
def fsExample : List FSTree :=
  [.dir "src" [.file "main.py"],
   .dir "__pycache__" [.file "keepme.txt"],
   .file "README.md",
   .file "x.pyc"]

/-! ## Helper lemmas on the string model -/

theorem leadsWith_self_append (n b : List Char) : leadsWith n (n ++ b) = true := by
  induction n with
  | nil => rfl
  | cons c cs ih => simp [leadsWith, ih]

theorem leadsWith_eq_true_iff (n : List Char) :
    ∀ h, leadsWith n h = true ↔ ∃ b, h = n ++ b := by
  induction n with
  | nil => intro h; simp [leadsWith]
  | cons c cs ih =>
    intro h
    cases h with
    | nil => simp [leadsWith]
    | cons x xs =>
      simp only [leadsWith, Bool.and_eq_true, beq_iff_eq, ih, List.cons_append,
        List.cons.injEq]
      constructor
      · rintro ⟨rfl, b, rfl⟩; exact ⟨b, rfl, rfl⟩
      · rintro ⟨b, rfl, rfl⟩; exact ⟨rfl, b, rfl⟩

theorem containsSeq_eq_true_iff (n : List Char) :
    ∀ h, containsSeq n h = true ↔ ∃ a b, h = a ++ n ++ b := by
  intro h
  induction h with
  | nil =>
    simp only [containsSeq, leadsWith_eq_true_iff]
    constructor
    · rintro ⟨b, hb⟩; exact ⟨[], b, by simpa using hb⟩
    · rintro ⟨a, b, hb⟩
      rcases List.append_eq_nil.mp hb.symm with ⟨h1, h2⟩
      rcases List.append_eq_nil.mp h1 with ⟨rfl, rfl⟩
      exact ⟨b, by simpa using hb⟩
  | cons x xs ih =>
    simp only [containsSeq, Bool.or_eq_true, leadsWith_eq_true_iff, ih]
    constructor
    · rintro (⟨b, hb⟩ | ⟨a, b, hb⟩)
      · exact ⟨[], b, by simpa using hb⟩
      · exact ⟨x :: a, b, by simp [hb]⟩
    · rintro ⟨a, b, hb⟩
      cases a with
      | nil => exact Or.inl ⟨b, by simpa using hb⟩
      | cons y a =>
        simp only [List.cons_append, List.cons.injEq] at hb
        exact Or.inr ⟨a, b, hb.2⟩

theorem splitOnChar_ne_nil (sep : Char) (cs : List Char) : splitOnChar sep cs ≠ [] := by
  cases cs with
  | nil => simp [splitOnChar]
  | cons c cs =>
    simp only [splitOnChar]
    split
    · simp
    · split <;> simp

theorem splitLines_append_cons (a b : List Char) :
    splitLines (a ++ '\n' :: b) = splitLines a ++ splitLines b := by
  induction a with
  | nil => simp [splitLines, splitOnChar]
  | cons c cs ih =>
    rcases hsp : splitOnChar '\n' cs with _ | ⟨l, ls⟩
    · exact absurd hsp (splitOnChar_ne_nil _ _)
    · by_cases hc : c = '\n'
      · subst hc
        simp only [splitLines, splitOnChar] at ih ⊢
        simp [ih]
      · have hc' : (c == '\n') = false := by simpa using hc
        simp only [splitLines, splitOnChar] at ih ⊢
        simp [hc', ih, hsp]

theorem splitLines_eq_self (l : List Char) (h : ∀ c ∈ l, c ≠ '\n') :
    splitLines l = [l] := by
  induction l with
  | nil => rfl
  | cons c cs ih =>
    have hc : (c == '\n') = false := by
      simpa using h c (by simp)
    have ih' := ih fun x hx => h x (by simp [hx])
    simp only [splitLines, splitOnChar] at ih' ⊢
    rw [hc]
    simp [ih']

theorem mem_splitLines_no_newline {cs : List Char} :
    ∀ {l}, l ∈ splitLines cs → ∀ c ∈ l, c ≠ '\n' := by
  induction cs with
  | nil =>
    intro l hl
    simp only [splitLines, splitOnChar, List.mem_singleton] at hl
    subst hl; simp
  | cons c cs ih =>
    intro l hl
    by_cases hc : c = '\n'
    · subst hc
      simp only [splitLines, splitOnChar, beq_self_eq_true, if_true, List.mem_cons] at hl
      rcases hl with rfl | hl
      · simp
      · exact ih hl
    · have hc' : (c == '\n') = false := by simpa using hc
      rcases hsp : splitOnChar '\n' cs with _ | ⟨m, ms⟩
      · exact absurd hsp (splitOnChar_ne_nil _ _)
      · simp only [splitLines, splitOnChar, hc', Bool.false_eq_true, if_false, hsp,
          List.mem_cons] at hl
        rcases hl with rfl | hl
        · intro x hx
          rcases List.mem_cons.mp hx with rfl | hx
          · exact hc
          · exact ih (l := m) (by simp [splitLines, hsp]) x hx
        · exact ih (l := l) (by simp [splitLines, hsp, hl])

theorem splitLines_joinLines (Ls : List (List Char)) (h : Ls ≠ []) :
    splitLines (joinLines Ls) = Ls.flatMap splitLines := by
  induction Ls with
  | nil => exact absurd rfl h
  | cons l ls ih =>
    cases ls with
    | nil => simp [joinLines]
    | cons l2 ls' =>
      have : joinLines (l :: l2 :: ls') = l ++ '\n' :: joinLines (l2 :: ls') := rfl
      rw [this, splitLines_append_cons, ih (by simp)]
      simp

theorem flatMap_splitLines_eq_self (Ls : List (List Char))
    (h : ∀ l ∈ Ls, ∀ c ∈ l, c ≠ '\n') : Ls.flatMap splitLines = Ls := by
  induction Ls with
  | nil => rfl
  | cons l ls ih =>
    rw [List.flatMap_cons, splitLines_eq_self l (h l (by simp)),
      ih fun x hx => h x (by simp [hx])]
    rfl

theorem joinLines_length (Ls : List (List Char)) :
    (joinLines Ls).length = (Ls.map List.length).sum + (Ls.length - 1) := by
  induction Ls with
  | nil => rfl
  | cons l ls ih =>
    cases ls with
    | nil => simp [joinLines]
    | cons l2 ls' =>
      have : joinLines (l :: l2 :: ls') = l ++ '\n' :: joinLines (l2 :: ls') := rfl
      rw [this]
      simp only [List.length_append, List.length_cons, ih, List.map_cons, List.sum_cons]
      simp only [List.length_cons, List.length_map] at ih ⊢
      omega

theorem mem_joinLines_decomp {Ls : List (List Char)} {l : List Char} (h : l ∈ Ls) :
    ∃ a b, joinLines Ls = a ++ (l ++ b) := by
  induction Ls with
  | nil => exact absurd h (by simp)
  | cons x ls ih =>
    cases ls with
    | nil =>
      rcases List.mem_singleton.mp h with rfl
      exact ⟨[], [], by simp [joinLines]⟩
    | cons x2 ls' =>
      have hj : joinLines (x :: x2 :: ls') = x ++ '\n' :: joinLines (x2 :: ls') := rfl
      rcases List.mem_cons.mp h with rfl | h'
      · exact ⟨[], '\n' :: joinLines (x2 :: ls'), by simp [hj]⟩
      · rcases ih h' with ⟨a, b, hab⟩
        exact ⟨x ++ '\n' :: a, b, by simp [hj, hab]⟩

theorem containsSeq_joinLines_of_mem {Ls : List (List Char)} {n l : List Char}
    (hl : l ∈ Ls) (hn : containsSeq n l = true) :
    containsSeq n (joinLines Ls) = true := by
  rcases (containsSeq_eq_true_iff n l).mp hn with ⟨a, b, rfl⟩
  rcases mem_joinLines_decomp hl with ⟨p, q, hj⟩
  exact (containsSeq_eq_true_iff n _).mpr ⟨p ++ a, b ++ q, by simp [hj]⟩

/-! ## Structure of `truncate_content`: the character cut is applied to the
result of the line cut -/

theorem truncate_eq_cuts (content : List Char) (ml mc : Nat) :
    truncate_content content ml mc = pyCharCut content mc (pyLineCut content ml) := by
  unfold truncate_content pyCharCut pyLineCut
  by_cases h1 : (splitLines content).length ≤ ml
  · have h1' : ¬ ml < (splitLines content).length := by omega
    by_cases h2 : content.length ≤ mc
    · have h2' : ¬ mc < content.length := by omega
      simp [h1, h2, h1', h2']
    · have h2' : mc < content.length := by omega
      simp [h1, h2, h1', h2']
  · have h1' : ml < (splitLines content).length := by omega
    simp [h1, h1']

/-! ## The 500-line truncation scenario -/

set_option maxRecDepth 4000 in
theorem pyLines500_no_newline : ∀ l ∈ pyLines500, ∀ c ∈ l, c ≠ '\n' := by
  have h : pyLines500.all (fun l => l.all (fun c => !(c == '\n'))) = true := by decide
  simp only [List.all_eq_true] at h
  intro l hl c hc
  have h' := h l hl
  simp only [List.all_eq_true] at h'
  simpa using h' c hc

theorem pyLines500_length : pyLines500.length = 500 := by
  simp [pyLines500]

theorem pyLines500_ne_nil : pyLines500 ≠ [] := by
  intro h
  have := pyLines500_length
  rw [h] at this
  simp at this

theorem splitLines_pyContent500 : splitLines pyContent500 = pyLines500 := by
  rw [pyContent500, splitLines_joinLines _ pyLines500_ne_nil,
    flatMap_splitLines_eq_self _ pyLines500_no_newline]

set_option maxRecDepth 4000 in
theorem pyLineCut500_eq : pyLineCut pyContent500 50 = joinLines pyTrunc500Lines := by
  rw [pyLineCut]
  simp only [splitLines_pyContent500, pyLines500_length, pyTakeLast, pyTrunc500Lines]
  norm_num

set_option maxRecDepth 4000 in
theorem joinLines_pyTrunc500_length : (joinLines pyTrunc500Lines).length = 565 := by
  have hs1 : ((pyLines500.take 25).map List.length).sum = 215 := by decide
  have hs2 : ((pyLines500.drop 475).map List.length).sum = 250 := by decide
  have hs3 : (lineMarker 50 500).length = 50 := by decide
  have hl1 : (pyLines500.take 25).length = 25 := by
    simp [List.length_take, pyLines500_length]
  have hl2 : (pyLines500.drop 475).length = 25 := by
    simp [List.length_drop, pyLines500_length]
  rw [joinLines_length, pyTrunc500Lines]
  simp only [List.map_append, List.map_cons, List.sum_append, List.sum_cons,
    List.length_append, List.length_cons, hs1, hs2, hs3, hl1, hl2]
  omega

theorem truncate500_eq :
    truncate_content pyContent500 50 1000 = joinLines pyTrunc500Lines := by
  rw [truncate_eq_cuts, pyLineCut500_eq, pyCharCut, joinLines_pyTrunc500_length]
  norm_num

set_option maxRecDepth 4000 in
/-- C4 (counterexample): the claim asserts that on the 500-line
`"# Line {i}"` scenario, `truncate_content(text, 50, 1000)` does not
contain `"# Line 499"`; in fact the truncation keeps the last
`50 // 2 = 25` lines, so the output does contain `"# Line 499"`. -/
theorem c4_counterexample :
    containsSeq ("# Line 499").data (truncate_content pyContent500 50 1000) = true := by
  rw [truncate500_eq]
  have hmem : ("# Line 499").data ∈ pyLines500.drop 475 := by decide
  exact containsSeq_joinLines_of_mem
    (List.mem_append_right _ (List.mem_cons_of_mem _ hmem))
    ((containsSeq_eq_true_iff _ _).mpr ⟨[], [], by simp⟩)

set_option maxRecDepth 4000 in
/-- C4 (amended): on the 500-line `"# Line {i}"` scenario,
`truncate_content(text, 50, 1000)` contains `"# Line 0"`, contains
`"# Line 499"` (the tail of the file is preserved, per the function's own
docstring), contains the truncation marker, and renders at most 60 lines. -/
theorem c4_thm :
    containsSeq ("# Line 0").data (truncate_content pyContent500 50 1000) = true
    ∧ containsSeq ("# Line 499").data (truncate_content pyContent500 50 1000) = true
    ∧ containsSeq ("[... файл обрезан").data (truncate_content pyContent500 50 1000) = true
    ∧ (splitLines (truncate_content pyContent500 50 1000)).length ≤ 60 := by
  rw [truncate500_eq]
  refine ⟨?_, ?_, ?_, ?_⟩
  · have hmem : ("# Line 0").data ∈ pyLines500.take 25 := by decide
    exact containsSeq_joinLines_of_mem (List.mem_append_left _ hmem)
      ((containsSeq_eq_true_iff _ _).mpr ⟨[], [], by simp⟩)
  · have hmem : ("# Line 499").data ∈ pyLines500.drop 475 := by decide
    exact containsSeq_joinLines_of_mem
      (List.mem_append_right _ (List.mem_cons_of_mem _ hmem))
      ((containsSeq_eq_true_iff _ _).mpr ⟨[], [], by simp⟩)
  · have hmk : containsSeq ("[... файл обрезан").data (lineMarker 50 500) = true := by
      decide
    exact containsSeq_joinLines_of_mem
      (List.mem_append_right _ (List.mem_cons_self _ _)) hmk
  · rw [splitLines_joinLines _ (by simp [pyTrunc500Lines]), pyTrunc500Lines,
      List.flatMap_append, List.flatMap_cons]
    have h1 : (pyLines500.take 25).flatMap splitLines = pyLines500.take 25 :=
      flatMap_splitLines_eq_self _ fun l hl =>
        pyLines500_no_newline l (List.take_subset _ _ hl)
    have h2 : (pyLines500.drop 475).flatMap splitLines = pyLines500.drop 475 :=
      flatMap_splitLines_eq_self _ fun l hl =>
        pyLines500_no_newline l (List.drop_subset _ _ hl)
    have h3 : (splitLines (lineMarker 50 500)).length = 3 := by decide
    rw [h1, h2]
    simp only [List.length_append, List.length_take, List.length_drop,
      pyLines500_length, h3]
    omega

/-! ## Retained first and last lines under the line cut -/

theorem getLastD_mem {α : Type _} (l : List α) (d : α) (h : l ≠ []) :
    l.getLastD d ∈ l := by
  cases l with
  | nil => exact absurd rfl h
  | cons a l =>
    rw [List.getLastD_cons]
    exact List.getLastD_mem_cons l a

theorem getLastD_append_right {α : Type _} (a b : List α) (d : α) (h : b ≠ []) :
    (a ++ b).getLastD d = b.getLastD d := by
  have hb : b.getLast?.isSome := List.getLast?_isSome.mpr h
  rcases Option.isSome_iff_exists.mp hb with ⟨x, hx⟩
  simp [List.getLastD_eq_getLast?, List.getLast?_append, hx]

/-- C1 (amended): for every text and both bounds, `truncate_content` is the
character-count cut applied to the result of the line-count cut, never the
other way round; and whenever the line bound is exceeded but the line-cut
result still fits the character bound (so the character cut is a no-op),
the first and the last line of the original text both appear as lines of
the output. When the character bound is still exceeded after the line cut,
the tail — including the last retained line — can be cut away
(see the counterexample). -/
theorem c1_thm (content : List Char) (max_lines max_chars : Nat) :
    truncate_content content max_lines max_chars
      = pyCharCut content max_chars (pyLineCut content max_lines)
    ∧ (2 ≤ max_lines →
       max_lines < (splitLines content).length →
       (pyLineCut content max_lines).length ≤ max_chars →
       (splitLines content).headD []
          ∈ splitLines (truncate_content content max_lines max_chars)
       ∧ (splitLines content).getLastD []
          ∈ splitLines (truncate_content content max_lines max_chars)) := by
  refine ⟨truncate_eq_cuts content max_lines max_chars, ?_⟩
  intro h2 hgt hlen
  have hout : truncate_content content max_lines max_chars
      = pyLineCut content max_lines := by
    rw [truncate_eq_cuts, pyCharCut]
    have hnc : ¬ max_chars < (pyLineCut content max_lines).length := by omega
    simp [hnc]
  have hhalf : 1 ≤ max_lines / 2 := by omega
  have hcond : max_lines / 2 * 2 < (splitLines content).length := by
    have := Nat.div_mul_le_self max_lines 2
    omega
  have h0 : (max_lines / 2 == 0) = false := by
    simp only [beq_eq_false_iff_ne, ne_eq]
    omega
  have hlineeq : pyLineCut content max_lines
      = joinLines ((splitLines content).take (max_lines / 2)
          ++ lineMarker (max_lines / 2 * 2) (splitLines content).length
          :: (splitLines content).drop
              ((splitLines content).length - max_lines / 2)) := by
    simp only [pyLineCut, pyTakeLast]
    rw [if_pos hgt, if_pos hcond, h0]
    simp
  have hLne : splitLines content ≠ [] := by
    intro hnil
    rw [hnil] at hgt
    simp at hgt
  obtain ⟨x, t, hxt⟩ : ∃ x t, splitLines content = x :: t := by
    cases hc : splitLines content with
    | nil => exact absurd hc hLne
    | cons a l => exact ⟨a, l, rfl⟩
  have hsplit_out : splitLines (truncate_content content max_lines max_chars)
      = ((splitLines content).take (max_lines / 2)
          ++ lineMarker (max_lines / 2 * 2) (splitLines content).length
          :: (splitLines content).drop
              ((splitLines content).length - max_lines / 2)).flatMap splitLines := by
    rw [hout, hlineeq, splitLines_joinLines _ (by simp)]
  constructor
  · -- the first line of the text is the head of the take part
    have hheadmem : (splitLines content).headD [] ∈ splitLines content := by
      rw [hxt]
      simp
    have hnl := mem_splitLines_no_newline hheadmem
    have hmemtake : (splitLines content).headD []
        ∈ (splitLines content).take (max_lines / 2) := by
      obtain ⟨k, hk⟩ : ∃ k, max_lines / 2 = k + 1 := ⟨max_lines / 2 - 1, by omega⟩
      rw [hxt, hk]
      simp
    rw [hsplit_out]
    refine List.mem_flatMap.mpr ⟨(splitLines content).headD [], ?_, ?_⟩
    · exact List.mem_append_left _ hmemtake
    · rw [splitLines_eq_self _ hnl]
      simp
  · -- the last line of the text is the last of the drop part
    have hglmem : (splitLines content).getLastD [] ∈ splitLines content :=
      getLastD_mem _ _ hLne
    have hnl := mem_splitLines_no_newline hglmem
    have hdropne : (splitLines content).drop
        ((splitLines content).length - max_lines / 2) ≠ [] := by
      intro hnil
      have := congrArg List.length hnil
      simp only [List.length_drop, List.length_nil] at this
      omega
    have hglast : (splitLines content).getLastD []
        = ((splitLines content).drop
            ((splitLines content).length - max_lines / 2)).getLastD [] := by
      conv_lhs =>
        rw [← List.take_append_drop
          ((splitLines content).length - max_lines / 2) (splitLines content)]
      exact getLastD_append_right _ _ _ hdropne
    have hmemdrop : (splitLines content).getLastD []
        ∈ (splitLines content).drop
            ((splitLines content).length - max_lines / 2) := by
      rw [hglast]
      exact getLastD_mem _ _ hdropne
    rw [hsplit_out]
    refine List.mem_flatMap.mpr ⟨(splitLines content).getLastD [], ?_, ?_⟩
    · exact List.mem_append_right _ (List.mem_cons_of_mem _ hmemdrop)
    · rw [splitLines_eq_self _ hnl]
      simp

/-- C1 (witness): on the 5-line text `"a\nb\nc\nd\ne"` with bounds
`(2, 100)` — line bound exceeded, character bound not — the first line
`"a"` and the last line `"e"` both appear as lines of the output. -/
theorem c1_witness :
    ("a").data ∈ splitLines (truncate_content ("a\nb\nc\nd\ne").data 2 100)
    ∧ ("e").data ∈ splitLines (truncate_content ("a\nb\nc\nd\ne").data 2 100) := by
  have h := (c1_thm ("a\nb\nc\nd\ne").data 2 100).2 (by norm_num) (by decide)
    (by decide)
  have e1 : (splitLines ("a\nb\nc\nd\ne").data).headD [] = ("a").data := by decide
  have e2 : (splitLines ("a\nb\nc\nd\ne").data).getLastD [] = ("e").data := by decide
  exact ⟨e1 ▸ h.1, e2 ▸ h.2⟩

/-- C1 (counterexample): on a 10-line text with both bounds (4 lines, 20
characters) exceeded simultaneously, `truncate_content` shortens the text
but the last retained line `"L9"` does not appear in the output at all —
the character cut, applied after the line cut, removes the tail. -/
theorem c1_counterexample :
    (4 < (splitLines ("L0\nL1\nL2\nL3\nL4\nL5\nL6\nL7\nL8\nL9").data).length
      ∧ 20 < ("L0\nL1\nL2\nL3\nL4\nL5\nL6\nL7\nL8\nL9").data.length)
    ∧ truncate_content ("L0\nL1\nL2\nL3\nL4\nL5\nL6\nL7\nL8\nL9").data 4 20
        ≠ ("L0\nL1\nL2\nL3\nL4\nL5\nL6\nL7\nL8\nL9").data
    ∧ containsSeq ("L9").data
        (truncate_content ("L0\nL1\nL2\nL3\nL4\nL5\nL6\nL7\nL8\nL9").data 4 20)
      = false := by
  decide

/-! ## Priority classifier claims -/

/-- C2 (counterexample): `"src/engine.py"` has the source suffix `.py`, a
path segment named `src`, and no `test` substring in name or path, yet
`detect_file_priority` returns NOISE, not HIGH — the code tests for the
substring `'/src/'`, which a leading `src` segment never produces. -/
theorem c2_counterexample :
    pathSuffix "src/engine.py" = ".py"
    ∧ pathParts "src/engine.py" = ["src", "engine.py"]
    ∧ containsStr "src/engine.py" "test" = false
    ∧ containsStr (pathName "src/engine.py") "test" = false
    ∧ detect_file_priority "src/engine.py" = FilePriority.NOISE
    ∧ FilePriority.NOISE ≠ FilePriority.HIGH := by
  decide

/-- C2 (amended): for every path with the source suffix `.py` whose path
string contains one of the substrings `'/src/', '/lib/', '/core/',
'/main/', '/app/'` (i.e. a non-leading segment named `src, lib, core,
main, app`), such that neither the base name nor the full path contains
the substring `test`, `detect_file_priority` returns HIGH; in particular
`classify("src/core/engine.py") = HIGH` (via its interior `core` segment —
see the witness). -/
theorem c2_thm (p : String)
    (hpy : pathSuffix p = ".py")
    (hcore : coreParts.any (fun part => containsStr p part) = true)
    (hname : containsStr (pathName p) "test" = false)
    (hpath : containsStr p "test" = false) :
    detect_file_priority p = FilePriority.HIGH := by
  have hc1 : pathName p ∉ criticalNames := by
    intro hmem
    rw [pathSuffix] at hpy
    simp only [criticalNames, List.mem_cons, List.not_mem_nil, or_false] at hmem
    rcases hmem with h | h | h | h | h <;> rw [h] at hpy <;>
      exact absurd hpy (by decide)
  by_cases hhc : pathName p ∈ highConfigNames
  · simp [detect_file_priority, hc1, hhc]
  · have hcore' : ∃ x ∈ coreParts, containsStr p x = true := by simpa using hcore
    simp [detect_file_priority, hc1, hhc, hpy, hcore', hname, hpath]

/-- C2 (witness): the classifier sends `"src/core/engine.py"` to HIGH. -/
theorem c2_witness : detect_file_priority "src/core/engine.py" = FilePriority.HIGH :=
  c2_thm "src/core/engine.py" (by decide) (by decide) (by decide) (by decide)

/-! ## Pattern matcher claims -/

/-- C5 (counterexample): the claim says a pattern containing the wildcard
`'?'` is glob-matched; but `match_pattern` only tests for `'*'`, so
`match_pattern("abc", "a?c")` is false although the glob `"a?c"` matches
`"abc"` (as the claim-side matcher `match_pattern_claimed` shows). -/
theorem c5_counterexample :
    match_pattern "abc" "a?c" = false
    ∧ match_pattern_claimed "abc" "a?c" = true
    ∧ fnmatchB "abc" "a?c" = true := by
  decide

/-- C5 (amended): `match_pattern` returns true on exact equality;
otherwise, if the pattern contains `'*'` — and only `'*'`: a `'?'` alone
does not trigger glob matching — it returns the shell-style glob match of
the full name; otherwise, if the pattern starts with a dot, it returns
whether the name ends with the pattern; otherwise false. It is total and
deterministic (a total Lean function). -/
theorem c5_thm (filename pattern : String) :
    (pattern = filename → match_pattern filename pattern = true)
    ∧ (pattern ≠ filename → pattern.data.contains '*' = true →
        match_pattern filename pattern = fnmatchB filename pattern)
    ∧ (pattern ≠ filename → pattern.data.contains '*' = false →
        leadsWith ['.'] pattern.data = true →
        match_pattern filename pattern = trailsWith pattern.data filename.data)
    ∧ (pattern ≠ filename → pattern.data.contains '*' = false →
        leadsWith ['.'] pattern.data = false →
        match_pattern filename pattern = false) := by
  unfold match_pattern
  refine ⟨?_, ?_, ?_, ?_⟩ <;> intros <;> simp_all

/-- C5 (witness): `"*.pyc"` is not equal to `"x.pyc"` and contains `'*'`,
so `match_pattern` delegates to the glob matcher, which accepts. -/
theorem c5_witness :
    (("*.pyc" : String) ≠ "x.pyc")
    ∧ match_pattern "x.pyc" "*.pyc" = fnmatchB "x.pyc" "*.pyc"
    ∧ fnmatchB "x.pyc" "*.pyc" = true := by
  refine ⟨by decide, ?_, by decide⟩
  exact (c5_thm "x.pyc" "*.pyc").2.1 (by decide) (by decide)

/-! ## Exclusion policy claims -/

/-- C6: for every builder state and every (non-directory) file path,
`_should_exclude` returns true exactly when the base name matches some
pattern of the excluded-file-names set (via `match_pattern`), or the base
name glob-matches some pattern of the excluded-file-patterns set (pure
`fnmatch`), or the file's extension (with leading dot) equals some entry
of the excluded-extensions set, or some custom filter predicate holds of
the path. -/
theorem c6_thm (b : Builder) (path : List String) :
    _should_exclude b false path = true ↔
      (∃ pat ∈ b.exclusions.files, match_pattern (segBaseName path) pat = true)
      ∨ (∃ pat ∈ b.exclusions.file_patterns, fnmatchB (segBaseName path) pat = true)
      ∨ (∃ ext ∈ b.exclusions.extensions, nameSuffix (segBaseName path) = ext)
      ∨ (∃ cond ∈ b.custom_filters, cond path = true) := by
  simp only [_should_exclude, Bool.false_eq_true, if_false, Bool.or_eq_true,
    List.any_eq_true, beq_iff_eq]
  constructor
  · rintro (((h | h) | h) | h)
    · exact Or.inl h
    · exact Or.inr (Or.inl h)
    · exact Or.inr (Or.inr (Or.inl h))
    · exact Or.inr (Or.inr (Or.inr h))
  · rintro (h | h | h | h)
    · exact Or.inl (Or.inl (Or.inl h))
    · exact Or.inl (Or.inl (Or.inr h))
    · exact Or.inl (Or.inr h)
    · exact Or.inr h

/-! ## Tree walker pruning claims -/

theorem walkF_ancestors (b : Builder) :
    ∀ fuel base entries p, p ∈ walkF b fuel base entries →
      ∃ s, p = base ++ s ∧ s ≠ [] ∧
        ∀ q r, s = q ++ r → q ≠ [] → r ≠ [] →
          _should_exclude b true (base ++ q) = false := by
  intro fuel
  induction fuel with
  | zero =>
    intro base entries p hp
    simp [walkF] at hp
  | succ fuel ih =>
    intro base entries p hp
    rw [walkF] at hp
    rcases List.mem_append.mp hp with hfile | hdir
    · rcases List.mem_filterMap.mp hfile with ⟨e, he, hsome⟩
      cases e with
      | dir n cs => simp at hsome
      | file n =>
        by_cases hex : _should_exclude b false (base ++ [n]) = true
        · simp [hex] at hsome
        · have hex' : _should_exclude b false (base ++ [n]) = false := by
            simpa using hex
          simp [hex'] at hsome
          refine ⟨[n], hsome.symm, by simp, ?_⟩
          intro q r hqr hq hr
          exfalso
          have h1 : (1 : Nat) = q.length + r.length := by
            simpa using congrArg List.length hqr
          have h2 : q.length ≠ 0 := by simpa [List.length_eq_zero] using hq
          have h3 : r.length ≠ 0 := by simpa [List.length_eq_zero] using hr
          omega
    · rcases List.mem_flatten.mp hdir with ⟨l, hl, hpl⟩
      rcases List.mem_map.mp hl with ⟨e, he, hle⟩
      cases e with
      | file n =>
        rw [← hle] at hpl
        simp at hpl
      | dir n cs =>
        by_cases hex : _should_exclude b true (base ++ [n]) = true
        · rw [← hle] at hpl
          simp [hex] at hpl
        · have hex' : _should_exclude b true (base ++ [n]) = false := by simpa using hex
          rw [← hle] at hpl
          simp only [hex', Bool.false_eq_true, if_false] at hpl
          rcases ih (base ++ [n]) cs p hpl with ⟨s, hps, hsne, hanc⟩
          refine ⟨n :: s, by rw [hps, List.append_assoc, List.singleton_append],
            by simp, ?_⟩
          intro q r hqr hq hr
          cases q with
          | nil => exact absurd rfl hq
          | cons q0 qs =>
            have hinj : q0 = n ∧ s = qs ++ r := by
              have h' := hqr
              simp only [List.cons_append, List.cons.injEq] at h'
              exact ⟨h'.1.symm, h'.2⟩
            rcases hinj with ⟨rfl, hs⟩
            by_cases hqs : qs = []
            · subst hqs
              simpa using hex'
            · have h := hanc qs r hs hqs hr
              rw [List.append_assoc, List.singleton_append] at h
              exact h

/-- C3: for every modelled filesystem tree, every exclusion policy (default
sets plus arbitrary custom filters) and every walk budget, no path in the
result of `_collect_all_files` passes through an excluded directory: every
proper, non-empty ancestor prefix of a collected file path was judged
not-excluded by the policy's directory branch (pruning — excluded
directories are never descended into, so even a non-excluded file below
one never appears). -/
theorem c3_thm (b : Builder) (fuel : Nat) (root : List FSTree)
    (p : List String) (hp : p ∈ _collect_all_files b fuel root)
    (q r : List String) (hqr : p = q ++ r) (hq : q ≠ []) (hr : r ≠ []) :
    _should_exclude b true q = false := by
  rcases walkF_ancestors b fuel [] root p hp with ⟨s, hps, hsne, hanc⟩
  rw [List.nil_append] at hps
  subst hps
  have h := hanc q r hqr hq hr
  rwa [List.nil_append] at h

/-- C3 (witness): on the example tree, `["src", "main.py"]` is collected,
and its ancestor directory `["src"]` is indeed not excluded. -/
theorem c3_witness :
    (["src", "main.py"] ∈ _collect_all_files {} 3 fsExample)
    ∧ _should_exclude {} true ["src"] = false := by
  refine ⟨by decide, ?_⟩
  exact c3_thm {} 3 fsExample ["src", "main.py"] (by decide)
    ["src"] ["main.py"] rfl (by decide) (by decide)

/-! ## Prioritizer claims -/

theorem charListLe_total : ∀ a b : List Char, charListLe a b = true ∨ charListLe b a = true := by
  intro a
  induction a with
  | nil => intro b; exact Or.inl rfl
  | cons x xs ih =>
    intro b
    cases b with
    | nil => exact Or.inr rfl
    | cons y ys =>
      simp only [charListLe]
      by_cases h1 : x.toNat < y.toNat
      · left
        rw [if_pos h1]
      · by_cases h2 : y.toNat < x.toNat
        · right
          rw [if_pos h2]
        · rw [if_neg h1, if_neg h2, if_neg h2, if_neg h1]
          exact ih ys

theorem charListLe_trans :
    ∀ a b c : List Char, charListLe a b = true → charListLe b c = true →
      charListLe a c = true := by
  intro a
  induction a with
  | nil => intros; rfl
  | cons x xs ih =>
    intro b c hab hbc
    cases b with
    | nil => simp [charListLe] at hab
    | cons y ys =>
      cases c with
      | nil => simp [charListLe] at hbc
      | cons z zs =>
        simp only [charListLe] at hab hbc ⊢
        split_ifs at hab hbc ⊢ <;>
          first
            | rfl
            | omega
            | exact ih ys zs hab hbc

theorem pairLe_total : ∀ x y : Nat × String, (pairLe x y || pairLe y x) = true := by
  intro x y
  simp only [pairLe, Bool.or_eq_true, decide_eq_true_eq, Bool.and_eq_true, beq_iff_eq]
  rcases Nat.lt_trichotomy x.1 y.1 with h | h | h
  · exact Or.inr (Or.inl h)
  · rcases charListLe_total x.2.data y.2.data with hc | hc
    · exact Or.inl (Or.inr ⟨h, hc⟩)
    · exact Or.inr (Or.inr ⟨h.symm, hc⟩)
  · exact Or.inl (Or.inl h)

theorem pairLe_trans :
    ∀ x y z : Nat × String, pairLe x y = true → pairLe y z = true →
      pairLe x z = true := by
  intro x y z hxy hyz
  simp only [pairLe, Bool.or_eq_true, decide_eq_true_eq, Bool.and_eq_true,
    beq_iff_eq] at hxy hyz ⊢
  rcases hxy with h1 | ⟨h1, hc1⟩
  · rcases hyz with h2 | ⟨h2, hc2⟩
    · exact Or.inl (by omega)
    · exact Or.inl (by omega)
  · rcases hyz with h2 | ⟨h2, hc2⟩
    · exact Or.inl (by omega)
    · exact Or.inr ⟨by omega, charListLe_trans _ _ _ hc1 hc2⟩

theorem pyOrderedInsert_perm {α : Type _} (le : α → α → Bool) (a : α) :
    ∀ l : List α, (pyOrderedInsert le a l).Perm (a :: l) := by
  intro l
  induction l with
  | nil => exact List.Perm.refl _
  | cons b l ih =>
    simp only [pyOrderedInsert]
    split
    · exact List.Perm.refl _
    · exact (ih.cons b).trans (List.Perm.swap a b l)

theorem pySortBy_perm {α : Type _} (le : α → α → Bool) :
    ∀ l : List α, (pySortBy le l).Perm l := by
  intro l
  induction l with
  | nil => exact List.Perm.refl _
  | cons b l ih =>
    exact (pyOrderedInsert_perm le b (pySortBy le l)).trans (ih.cons b)

theorem mem_pyOrderedInsert {α : Type _} (le : α → α → Bool) (a : α) :
    ∀ (l : List α) (x : α), x ∈ pyOrderedInsert le a l → x = a ∨ x ∈ l := by
  intro l
  induction l with
  | nil =>
    intro x hx
    simp only [pyOrderedInsert, List.mem_singleton] at hx
    exact Or.inl hx
  | cons b l ih =>
    intro x hx
    simp only [pyOrderedInsert] at hx
    split at hx
    · rcases List.mem_cons.mp hx with rfl | h
      · exact Or.inl rfl
      · exact Or.inr h
    · rcases List.mem_cons.mp hx with rfl | h
      · exact Or.inr (List.mem_cons_self _ _)
      · rcases ih x h with rfl | h'
        · exact Or.inl rfl
        · exact Or.inr (List.mem_cons_of_mem _ h')

theorem pyOrderedInsert_pairwise {α : Type _} (le : α → α → Bool)
    (htrans : ∀ x y z, le x y = true → le y z = true → le x z = true)
    (htotal : ∀ x y, (le x y || le y x) = true) (a : α) :
    ∀ l : List α, l.Pairwise (fun x y => le x y = true) →
      (pyOrderedInsert le a l).Pairwise (fun x y => le x y = true) := by
  intro l
  induction l with
  | nil =>
    intro _
    simp [pyOrderedInsert]
  | cons b l ih =>
    intro hp
    rcases List.pairwise_cons.mp hp with ⟨hb, hl⟩
    simp only [pyOrderedInsert]
    split
    · rename_i hab
      refine List.pairwise_cons.mpr ⟨?_, hp⟩
      intro x hx
      rcases List.mem_cons.mp hx with rfl | hxl
      · exact hab
      · exact htrans a b x hab (hb x hxl)
    · rename_i hab
      have hab' : le a b = false := by
        cases h : le a b
        · rfl
        · exact absurd h hab
      have hba : le b a = true := by
        have h := htotal a b
        rw [hab'] at h
        simpa using h
      refine List.pairwise_cons.mpr ⟨?_, ih hl⟩
      intro x hx
      rcases mem_pyOrderedInsert le a l x hx with rfl | hxl
      · exact hba
      · exact hb x hxl

theorem pySortBy_pairwise {α : Type _} (le : α → α → Bool)
    (htrans : ∀ x y z, le x y = true → le y z = true → le x z = true)
    (htotal : ∀ x y, (le x y || le y x) = true) :
    ∀ l : List α, (pySortBy le l).Pairwise (fun x y => le x y = true) := by
  intro l
  induction l with
  | nil => simp [pySortBy]
  | cons b l ih =>
    exact pyOrderedInsert_pairwise le htrans htotal b _ ih

/-- C7: `prioritize_files` returns a permutation of its input sorted by
the key `(-tier.value, path)`: every earlier entry has a strictly higher
priority value than every later one, or an equal value and a path that is
lexicographically no greater (code-point order, as Python compares
strings). Since the sort key determines the element (it contains the whole
path string), this characterises the stable sort the claim describes. -/
theorem c7_thm (l : List String) :
    (prioritize_files l).Perm l
    ∧ (prioritize_files l).Pairwise priorityKeyLe := by
  unfold prioritize_files
  constructor
  · have h1 := pySortBy_perm pairLe
      (l.map (fun file_str => ((detect_file_priority file_str).value, file_str)))
    have h2 := h1.map Prod.snd
    have h3 : (l.map (fun file_str =>
        ((detect_file_priority file_str).value, file_str))).map Prod.snd = l := by
      simp [List.map_map, Function.comp_def]
    rwa [h3] at h2
  · have hs := pySortBy_pairwise pairLe pairLe_trans pairLe_total
      (l.map (fun file_str => ((detect_file_priority file_str).value, file_str)))
    have hmem : ∀ x ∈ pySortBy pairLe (l.map (fun file_str =>
        ((detect_file_priority file_str).value, file_str))),
        x.1 = (detect_file_priority x.2).value := by
      intro x hx
      have hx' := (pySortBy_perm pairLe _).subset hx
      rcases List.mem_map.mp hx' with ⟨f, _, rfl⟩
      rfl
    rw [List.pairwise_map]
    refine hs.imp_of_mem ?_
    intro a b ha hb hab
    have ha1 := hmem a ha
    have hb1 := hmem b hb
    simp only [pairLe, Bool.or_eq_true, decide_eq_true_eq, Bool.and_eq_true,
      beq_iff_eq] at hab
    rcases hab with h | ⟨h, hc⟩
    · exact Or.inl (by rw [← ha1, ← hb1]; exact h)
    · exact Or.inr ⟨by rw [← ha1, ← hb1]; exact h, hc⟩

/-! ## Analyzer claims -/

/-- C8: `analyze` is a total Lean function (it cannot raise), and whenever
the structural parse fails, the returned summary has empty imports, classes
and functions lists while `line_count` still equals the raw text's line
count. -/
theorem c8_thm (parse : List Char → Option ParsedModule) (content : List Char)
    (h : parse content = none) :
    (analyze parse content).imports = []
    ∧ (analyze parse content).classes = []
    ∧ (analyze parse content).functions = []
    ∧ (analyze parse content).line_count = (splitLines content).length := by
  simp [analyze, h]

/-- C8 (witness): a parser failing on the two-line text `"a\nb"` yields the
empty summary with line count 2. -/
theorem c8_witness :
    (analyze (fun _ => none) ("a\nb").data).imports = []
    ∧ (analyze (fun _ => none) ("a\nb").data).line_count = 2 := by
  have h := c8_thm (fun _ => none) ("a\nb").data rfl
  refine ⟨h.1, ?_⟩
  rw [h.2.2.2]
  decide

/-! ## Directory tree renderer claims -/

/-- C9 (code bug): the renderer never registers a multi-segment path's
top-level directory under the root key `'.'`, so for the included file
`src/core/node.py` — the example of the renderer's own docstring — the
rendered tree is the empty string: no entries are emitted at all, let
alone connector-prefixed children; with a root-level file present, only
root-level files are rendered and every nested entry is silently dropped.
(Where `build_tree` does emit connectors, it also chooses `└── ` versus
`├── ` by the parent's `is_last` flag instead of the child's, so the last
child is not distinguished from its siblings.) -/
theorem c9_thm :
    build_directory_tree ["src/core/node.py"] = ""
    ∧ build_directory_tree ["a.txt", "src/core/node.py"] = "📄 a.txt" := by
  decide

/-! ## Content-section claims -/

/-- C10 (counterexample): the file `src/empty.py`, included and readable
with empty content, produces no entry in the content section — but it also
does not appear anywhere in the rendered directory tree (the renderer
drops all nested entries), so the claim's "they still appear in the
directory tree" is false. -/
theorem c10_counterexample :
    content_section (fun _ => some []) (fun _ => none) ["src/empty.py"] = []
    ∧ containsStr (build_directory_tree ["src/empty.py"]) "empty" = false := by
  decide

theorem headD_splitLines_joinLines (h : List Char) (rest : List (List Char))
    (hnl : ∀ c ∈ h, c ≠ '\n') :
    (splitLines (joinLines (h :: rest))).headD [] = h := by
  cases rest with
  | nil => simp [joinLines, splitLines_eq_self h hnl]
  | cons r rs =>
    have hj : joinLines (h :: r :: rs) = h ++ '\n' :: joinLines (r :: rs) := rfl
    rw [hj, splitLines_append_cons, splitLines_eq_self h hnl]
    simp

theorem firstLineOf_format_file_entry (fi : FileInfo)
    (hnl : ∀ c ∈ fi.relative_path.data, c ≠ '\n') :
    firstLineOf (String.mk (format_file_entry fi)) = "📄 " ++ fi.relative_path := by
  have hh : ∀ c ∈ ("📄 " ++ fi.relative_path).data, c ≠ '\n' := by
    intro c hc
    rw [String.data_append] at hc
    rcases List.mem_append.mp hc with h | h
    · rcases List.mem_cons.mp h with rfl | h'
      · decide
      · rcases List.mem_singleton.mp h' with rfl
        decide
    · exact hnl c h
  obtain ⟨rest, hfmt⟩ :
      ∃ rest, format_file_entry fi
        = joinLines (("📄 " ++ fi.relative_path).data :: rest) := ⟨_, rfl⟩
  rw [firstLineOf, hfmt]
  exact congrArg String.mk (headD_splitLines_joinLines _ _ hh)

theorem append_left_ne (a : String) {g f : String} (h : g ≠ f) :
    a ++ g ≠ a ++ f := by
  intro he
  apply h
  have hd := congrArg String.data he
  simp only [String.data_append] at hd
  exact String.ext (List.append_cancel_left hd)

theorem content_section_aux_no_empty_header (read : String → Option (List Char))
    (parse : List Char → Option ParsedModule) (f : String)
    (hf : read f = some []) (total : Nat) :
    ∀ (rest : List String) (i : Nat),
      (∀ g ∈ rest, ∀ c ∈ g.data, c ≠ '\n') →
      ∀ s ∈ content_section_aux read parse total i rest,
        firstLineOf s ≠ "📄 " ++ f := by
  intro rest
  induction rest with
  | nil =>
    intro i _ s hs
    simp [content_section_aux] at hs
  | cons g rest ih =>
    intro i hnl s hs
    simp only [content_section_aux] at hs
    rcases List.mem_append.mp hs with hleft | hright
    · cases hr : read g with
      | none =>
        rw [hr] at hleft
        simp at hleft
      | some c =>
        rw [hr] at hleft
        simp only [] at hleft
        by_cases hc : c.isEmpty = true
        · simp [hc] at hleft
        · rw [if_neg hc] at hleft
          have hgf : g ≠ f := by
            rintro rfl
            rw [hf] at hr
            injection hr with hr'
            rw [← hr'] at hc
            exact hc rfl
          rcases List.mem_cons.mp hleft with rfl | htail
          · rw [firstLineOf_format_file_entry _ (hnl g (List.mem_cons_self _ _))]
            exact append_left_ne "📄 " hgf
          · by_cases hit : i < total
            · rw [if_pos hit] at htail
              rcases List.mem_singleton.mp htail with rfl
              have hsep :
                  firstLineOf ("\n" ++ String.mk (List.replicate 40 '-') ++ "\n")
                    = "" := by decide
              rw [hsep]
              intro he
              have hd := congrArg String.data he.symm
              simp [String.data_append] at hd
            · rw [if_neg hit] at htail
              simp at htail
    · exact ih (i + 1) (fun g' hg' => hnl g' (List.mem_cons_of_mem _ hg')) s hright

/-- C10 (amended): for every read function, parser, prioritized list and
included file `f` whose read content is the empty string, the content
section of the built document contains no part headed by `f`'s
relative-path header line `"📄 f"`: empty files are silently omitted from
content embedding exactly like unreadable files. (They are also never
filtered out of the collected list the tree renderer consumes, but whether
they show in the rendered tree depends only on their position — the
renderer drops all nested entries regardless of content, see the
counterexample.) Path strings are assumed newline-free, as filesystem
walks produce them. -/
theorem c10_thm (read : String → Option (List Char))
    (parse : List Char → Option ParsedModule) (prioritized : List String)
    (f : String) (hf : read f = some [])
    (hnl : ∀ g ∈ prioritized, ∀ c ∈ g.data, c ≠ '\n')
    (s : String) (hs : s ∈ content_section read parse prioritized) :
    firstLineOf s ≠ "📄 " ++ f :=
  content_section_aux_no_empty_header read parse f hf prioritized.length
    prioritized 1 hnl s hs

/-- C10 (witness): with `empty.py` reading as the empty string and `a.py`
reading as `"x"`, the single content-section part (the `a.py` entry) is
not headed by `📄 empty.py`. -/
theorem c10_witness :
    firstLineOf ((content_section
        (fun g => if g == "empty.py" then some [] else some ("x").data)
        (fun _ => none) ["empty.py", "a.py"]).headD "")
      ≠ "📄 " ++ "empty.py" :=
  c10_thm (fun g => if g == "empty.py" then some [] else some ("x").data)
    (fun _ => none) ["empty.py", "a.py"] "empty.py" (by decide) (by decide)
    _ (by decide)

end ContextBuilderModel
